import Mathlib

/-!
Verification development for the resilient duplex messaging client of the
ai-assistant repository (`frontend/src/contexts/WebSocketContext.tsx`, the
`WebSocketProvider` component).  Every definition below is a shallow
embedding of a function or handler of that source file; the source line
each definition comes from is named in its doc comment.

Modelling conventions:
* The browser `WebSocket.readyState` values are the inductive `ReadyState`;
  `wsRef.current` is an `Option ReadyState` (`none` = ref is null).
* The React state `connectionState` is the inductive `ConnState`.
* `messageCallbacksRef` is a JavaScript `Map` from correlation id to the
  pending promise's `resolve` function.  The source builds the id with
  `Date.now().toString()`; since `toString` is injective on numbers we keep
  the id as the raw `Nat` timestamp.  The map is an insertion-ordered
  association list and `mapSet`/`mapGet`/`mapDelete`/`mapHas` reproduce the
  JavaScript `Map.set`/`get`/`delete`/`has` semantics (set replaces the
  entry in place when the key is present, otherwise appends).
* Invoking a pending promise's `resolve` or `reject` is recorded as a pair
  `(cbId, Outcome)` in a log; `cbId` identifies the caller whose promise the
  closure belongs to.
-/

namespace WSClient

/-- Browser `WebSocket.readyState` values (CONNECTING=0, OPEN=1, CLOSING=2,
CLOSED=3). -/
inductive ReadyState
  | CONNECTING
  | OPEN
  | CLOSING
  | CLOSED
  deriving DecidableEq, Repr, Fintype

/-- The React `connectionState` state variable of `WebSocketProvider`
(source line 156): 'connecting' | 'connected' | 'disconnected' | 'error'. -/
inductive ConnState
  | connecting
  | connected
  | disconnected
  | error
  deriving DecidableEq, Repr, Fintype

/-- How a pending caller's promise settles.  `response` and
`connectionLost` are invocations of the stored `resolve` function (the
promise FULFILLS); `timeout`, `notConnected` and `expired` are invocations
of `reject` (the promise REJECTS with `Error('Message timeout')`,
`Error('WebSocket not connected')`, `Error('Message expired')`
respectively, source lines 367, 353, 194).  `connectionLost` is the
`ws.onclose` handler calling the stored callback with the synthetic
`ChatResponse {message: 'Connection lost', ...}` (source lines 280-286):
note it is a fulfillment, not a rejection. -/
inductive Outcome
  | response (contextId : Nat)
  | connectionLost
  | timeout
  | notConnected
  | expired
  deriving DecidableEq, Repr

/-- Whether an outcome is a promise rejection (a failure surfaced to the
caller via `catch`) as opposed to a fulfillment. -/
def Outcome.isRejection : Outcome → Bool
  | Outcome.timeout => true
  | Outcome.notConnected => true
  | Outcome.expired => true
  | Outcome.response _ => false
  | Outcome.connectionLost => false

/-- JavaScript `Map.has` on the callback table (keys are unique, as in a
JS `Map`). -/
def mapHas : List (Nat × Nat) → Nat → Bool
  | [], _ => false
  | p :: t, key => if p.1 = key then true else mapHas t key

/-- JavaScript `Map.get` on the callback table. -/
def mapGet : List (Nat × Nat) → Nat → Option Nat
  | [], _ => none
  | p :: t, key => if p.1 = key then some p.2 else mapGet t key

/-- JavaScript `Map.set`: replaces the value in place when the key is
present (the earlier value is lost), otherwise appends the new entry at
the end of the insertion order. -/
def mapSet : List (Nat × Nat) → Nat → Nat → List (Nat × Nat)
  | [], key, val => [(key, val)]
  | p :: t, key, val => if p.1 = key then (key, val) :: t else p :: mapSet t key val

/-- JavaScript `Map.delete`. -/
def mapDelete : List (Nat × Nat) → Nat → List (Nat × Nat)
  | [], _ => []
  | p :: t, key => if p.1 = key then mapDelete t key else p :: mapDelete t key

/-- Number of entries of the callback table whose key is `m`. -/
def countKey : List (Nat × Nat) → Nat → Nat
  | [], _ => 0
  | p :: t, m => (if p.1 = m then 1 else 0) + countKey t m

/-- Number of entries of the callback table whose stored callback is `c`. -/
def countVal : List (Nat × Nat) → Nat → Nat
  | [], _ => 0
  | p :: t, c => (if p.2 = c then 1 else 0) + countVal t c

/-- Number of times callback `c` was invoked in a settlement log. -/
def countFired : List (Nat × Outcome) → Nat → Nat
  | [], _ => 0
  | p :: t, c => (if p.1 = c then 1 else 0) + countFired t c

/-- Reconnect attempt cap, `maxReconnectAttempts` (source line 164). -/
def maxReconnectAttempts : Nat := 10

/-- Per-request response deadline in milliseconds (source line 369,
`setTimeout(..., 30000)`). -/
def requestTimeoutMs : Nat := 30000

/-- Heartbeat period in milliseconds (source line 175). -/
def heartbeatIntervalMs : Nat := 30000

/-- Staleness horizon for queued messages in milliseconds (source line
193, `Date.now() - timestamp > 300000`, i.e. 5 minutes). -/
def expireHorizon : Nat := 300000

/-- Reconnect backoff: `Math.min(Math.pow(2, reconnectAttempts.current) *
1000, 30000)` (source lines 291 and 315). -/
def nextDelay (attempt : Nat) : Nat := min (2 ^ attempt * 1000) 30000

/-- One tick of the heartbeat interval installed by `startHeartbeat`
(source lines 171-175): the body sends a ping frame only when
`wsRef.current` exists and its `readyState` is `OPEN`; otherwise it does
nothing.  The tick never mutates any client state, so the returned view is
always the input view. -/
structure HeartbeatView where
  ws : Option ReadyState
  callbacks : List (Nat × Nat)
  queue : List Nat
  deriving DecidableEq, Repr

/-- The interval callback of `startHeartbeat` (source lines 171-175),
returning the unchanged state and the frame sent, if any. -/
def heartbeatTick (s : HeartbeatView) : HeartbeatView × Option String :=
  match s.ws with
  | some ReadyState.OPEN => (s, some "ping")
  | _ => (s, none)

/-- A message sitting in `messageQueueRef` (source line 162): the caller's
promise callbacks, identified by `cbId`, and the `Date.now()` enqueue
timestamp. -/
structure QMsg where
  cbId : Nat
  timestamp : Nat
  deriving DecidableEq, Repr

/-- The `forEach` body of `processMessageQueue` (source lines 191-200)
applied to the drained batch, head first: a message older than the
5-minute horizon is rejected with `Error('Message expired')`; otherwise it
is resent via `sendMessageInternal` (recorded in the second list, in
order). -/
def drainMessages (now : Nat) : List QMsg → List (Nat × Outcome) × List Nat
  | [] => ([], [])
  | msg :: rest =>
    let r := drainMessages now rest
    if msg.timestamp + expireHorizon < now then
      ((msg.cbId, Outcome.expired) :: r.1, r.2)
    else
      (r.1, msg.cbId :: r.2)

/-- `processMessageQueue` (source lines 185-201): returns unchanged (no
eviction, no callback fired, nothing sent) unless `wsRef.current` exists
and is OPEN; when OPEN it empties the queue atomically and processes the
drained batch.  Result: (queue after, (callbacks fired, messages
resent)). -/
def processMessageQueue (ws : Option ReadyState) (queue : List QMsg) (now : Nat) :
    List QMsg × (List (Nat × Outcome) × List Nat) :=
  match ws with
  | some ReadyState.OPEN => ([], drainMessages now queue)
  | _ => (queue, ([], []))

/-- `connect` (source lines 203-212 and 210-212): returns early only when
`wsRef.current` exists and its `readyState` is CONNECTING; otherwise it
sets `connectionState` to 'connecting' and constructs a fresh `WebSocket`
(which starts in readyState CONNECTING), storing it in `wsRef`.  Result:
(wsRef after, connectionState after, whether a new WebSocket was
constructed). -/
def connect (ws : Option ReadyState) (cs : ConnState) :
    Option ReadyState × ConnState × Bool :=
  match ws with
  | some ReadyState.CONNECTING => (some ReadyState.CONNECTING, cs, false)
  | _ => (some ReadyState.CONNECTING, ConnState.connecting, true)

/-- Effect of `WebSocket.close()` on a socket's readyState (used by
`reconnect`, source line 331): a CLOSED socket stays CLOSED, any other
socket moves to CLOSING. -/
def wsClose : ReadyState → ReadyState
  | ReadyState.CLOSED => ReadyState.CLOSED
  | _ => ReadyState.CLOSING

/-- `reconnect` (source lines 324-334): clears any scheduled retry timer,
resets `reconnectAttempts` to 0, closes the current socket if present and
calls `connect`.  Result: (result of the inner `connect`, attempt counter
after). -/
def reconnect (ws : Option ReadyState) (cs : ConnState) :
    (Option ReadyState × ConnState × Bool) × Nat :=
  (connect (ws.map wsClose) cs, 0)

/-- How `sendMessage` disposes of a request (source lines 386-428). -/
inductive Route
  | duplex
  | queued
  | httpFallback
  deriving DecidableEq, Repr

/-- The chain of `connectionState` checks in `sendMessage` reached when
the direct duplex path is not taken or has failed (source lines 396-427):
'connecting' → push onto `messageQueueRef`; 'disconnected' or 'error' →
call `reconnect()` and push onto `messageQueueRef`; anything else → fall
through to `sendHttpMessage`.  Result: (route, whether `reconnect()` was
triggered). -/
def routeWhenNotOpen (cs : ConnState) : Route × Bool :=
  if cs = ConnState.connecting then (Route.queued, false)
  else if cs = ConnState.disconnected ∨ cs = ConnState.error then (Route.queued, true)
  else (Route.httpFallback, false)

/-- `sendMessage` (source lines 386-428).  When `wsRef.current` is OPEN it
awaits `sendMessageInternal`; if that promise fulfills its value is
returned (route `duplex`); if it rejects (`duplexFailed = true`, e.g. the
30-second timeout rejection) the error is caught with only a console
warning and control falls through to the `connectionState` checks.  When
the socket is not OPEN the checks are reached directly. -/
def sendMessage (ws : Option ReadyState) (cs : ConnState) (duplexFailed : Bool) :
    Route × Bool :=
  if ws = some ReadyState.OPEN ∧ duplexFailed = false then (Route.duplex, false)
  else routeWhenNotOpen cs

/-- The `setTimeout` closure scheduled by `sendMessageInternal` (source
lines 364-369): it captures the correlation id `msgId` and the promise's
own `reject` (identified by `cbId`), and fires at `fireAt`. -/
structure PendingTimer where
  msgId : Nat
  cbId : Nat
  fireAt : Nat
  deriving DecidableEq, Repr

/-- Result of one `sendMessageInternal` call. -/
structure InternalSend where
  callbacksAfter : List (Nat × Nat)
  fired : List (Nat × Outcome)
  transmitted : List Nat
  timer : Option PendingTimer
  deriving Repr

/-- `sendMessageInternal` (source lines 350-384): when the socket is
absent or not OPEN the promise rejects immediately with
`Error('WebSocket not connected')`.  Otherwise the correlation id is
`Date.now()` (`now`), the promise's `resolve` is stored with `Map.set`
(silently replacing any entry already present under that id), a 30-second
timeout closure is scheduled, and the frame is transmitted. -/
def sendMessageInternal (ws : Option ReadyState) (callbacks : List (Nat × Nat))
    (now cbId : Nat) : InternalSend :=
  match ws with
  | some ReadyState.OPEN =>
    ⟨mapSet callbacks now cbId, [], [cbId],
      some ⟨now, cbId, now + requestTimeoutMs⟩⟩
  | _ => ⟨callbacks, [(cbId, Outcome.notConnected)], [], none⟩

/-- Firing of the timeout closure of source lines 364-369: if the
correlation id is still present in the table the entry is deleted and the
closure's own `reject` is invoked with `Error('Message timeout')`;
otherwise nothing happens. -/
def fireTimeout (t : List (Nat × Nat)) (msgId cbId : Nat) :
    List (Nat × Nat) × List (Nat × Outcome) :=
  if mapHas t msgId then (mapDelete t msgId, [(cbId, Outcome.timeout)])
  else (t, [])

/-- Events touching the pending-request table while the provider runs.
`register m c` is the registration step of `sendMessageInternal` while
OPEN (store `resolve` under id `m` with `Map.set`, schedule the timeout,
source lines 358-369); `response m` is the `chat_response` branch of
`ws.onmessage` (source lines 245-252); `timeoutF m c` is the timeout
closure firing (source lines 364-369); `close` is the drain of
`ws.onclose` (source lines 280-287). -/
inductive Act
  | register (msgId cbId : Nat)
  | response (contextId : Nat)
  | timeoutF (msgId cbId : Nat)
  | close
  deriving DecidableEq, Repr

/-- One event applied to the callback table, returning the new table and
the callbacks invoked by the handler, in invocation order.
* `register`: `messageCallbacksRef.current.set(messageId, resolve)`.
* `response`: `get`; if present, invoke the stored callback with the
  response and `delete` the entry; a miss is a silent no-op.
* `timeoutF`: the scheduled timeout closure (see `fireTimeout`).
* `close`: invoke every stored callback with the synthetic
  'Connection lost' response, then `clear()` the map. -/
def step (t : List (Nat × Nat)) : Act → List (Nat × Nat) × List (Nat × Outcome)
  | Act.register m c => (mapSet t m c, [])
  | Act.response m =>
    match mapGet t m with
    | some cb => (mapDelete t m, [(cb, Outcome.response m)])
    | none => (t, [])
  | Act.timeoutF m c => fireTimeout t m c
  | Act.close => ([], t.map (fun p => (p.2, Outcome.connectionLost)))

/-- Run a sequence of events from a table, accumulating the settlement
log. -/
def run : List (Nat × Nat) → List Act → List (Nat × Nat) × List (Nat × Outcome)
  | t, [] => (t, [])
  | t, a :: as =>
    let s := step t a
    let r := run s.1 as
    (r.1, s.2 ++ r.2)

/-- `ws.onopen` (source lines 214-231): reset `reconnectAttempts` to 0,
clear the scheduled reconnect timer, drain the queue with
`processMessageQueue` (the new socket's readyState is OPEN), start the
heartbeat.  All of this happens synchronously in the handler's event-loop
turn. -/
structure OpenEffect where
  attemptsAfter : Nat
  heartbeatAfter : Bool
  reconnectTimerAfter : Bool
  queueAfter : List QMsg
  fired : List (Nat × Outcome)
  transmitted : List Nat
  deriving Repr

/-- The `ws.onopen` handler (source lines 214-231). -/
def onOpen (queue : List QMsg) (attempts now : Nat) : OpenEffect :=
  let d := processMessageQueue (some ReadyState.OPEN) queue now
  ⟨0, true, false, d.1, d.2.1, d.2.2⟩

/-- `ws.onclose` (source lines 272-302). -/
structure CloseEffect where
  fired : List (Nat × Outcome)
  callbacksAfter : List (Nat × Nat)
  wsAfter : Option ReadyState
  heartbeatAfter : Bool
  reconnectScheduled : Bool
  scheduledDelay : Option Nat
  connStateAfter : ConnState
  deriving Repr

/-- The `ws.onclose` handler (source lines 272-302): set
`connectionState` to 'disconnected', null the socket ref, stop the
heartbeat, invoke every pending callback with the synthetic
'Connection lost' `ChatResponse` (through the stored `resolve` — the
promises FULFILL), clear the table; then, if the close code is not 1000
and the attempt cap is not reached, schedule `connect` after the backoff
delay; otherwise, if the cap is reached, set `connectionState` to
'error'. -/
def onClose (callbacks : List (Nat × Nat)) (attempts code : Nat) : CloseEffect :=
  let sched := decide (code ≠ 1000) && decide (attempts < maxReconnectAttempts)
  ⟨callbacks.map (fun p => (p.2, Outcome.connectionLost)),
    [], none, false, sched,
    if sched then some (nextDelay attempts) else none,
    if sched then ConnState.disconnected
    else if maxReconnectAttempts ≤ attempts then ConnState.error
    else ConnState.disconnected⟩

/-- Per-pair invariant: the table holds no trace of the pending pair
`(m, c)` — no entry keyed by the correlation id `m` and no entry storing
the callback `c`. -/
def TableDone (m c : Nat) (t : List (Nat × Nat)) : Prop :=
  ∀ p ∈ t, p.1 ≠ m ∧ p.2 ≠ c

/-- Per-pair invariant while the request `(m, c)` is pending: exactly one
entry is keyed by `m`, every entry keyed by `m` is `(m, c)` and every
entry storing `c` is `(m, c)`. -/
def TablePending (m c : Nat) (t : List (Nat × Nat)) : Prop :=
  countKey t m = 1 ∧
  (∀ p ∈ t, p.1 = m → p = (m, c)) ∧
  (∀ p ∈ t, p.2 = c → p = (m, c))

/-- Event predicate: the event is not a registration reusing the
correlation id `m` or the callback `c`. -/
def avoidsPair (m c : Nat) : Act → Bool
  | Act.register m1 c1 => decide (m1 ≠ m) && decide (c1 ≠ c)
  | _ => true

/-- Event predicate: a timeout closure mentions the correlation id `m`
exactly when it belongs to the callback `c` (true of every trace generated
by the source, where each timeout closure captures the id and promise of
the `sendMessageInternal` call that scheduled it). -/
def timeoutAligned (m c : Nat) : Act → Bool
  | Act.timeoutF m1 c1 => decide ((m1 = m) ↔ (c1 = c))
  | _ => true

theorem mapHas_eq_false_of (t : List (Nat × Nat)) (k : Nat)
    (h : ∀ p ∈ t, p.1 ≠ k) : mapHas t k = false := by
  induction t with
  | nil => rfl
  | cons p rest ih =>
    simp only [mapHas]
    rw [if_neg (h p (List.mem_cons_self p rest))]
    exact ih (fun q hq => h q (List.mem_cons_of_mem p hq))

theorem mapHas_of_mem (t : List (Nat × Nat)) (k v : Nat) (h : (k, v) ∈ t) :
    mapHas t k = true := by
  induction t with
  | nil => cases h
  | cons p rest ih =>
    simp only [mapHas]
    by_cases hk : p.1 = k
    · rw [if_pos hk]
    · rw [if_neg hk]
      rcases List.mem_cons.mp h with h1 | h2
      · exact absurd (congrArg Prod.fst h1).symm hk
      · exact ih h2

theorem mapGet_eq_some_of (t : List (Nat × Nat)) (m c : Nat)
    (hmem : (m, c) ∈ t) (hkey : ∀ p ∈ t, p.1 = m → p = (m, c)) :
    mapGet t m = some c := by
  induction t with
  | nil => cases hmem
  | cons p rest ih =>
    simp only [mapGet]
    by_cases hk : p.1 = m
    · rw [if_pos hk]
      rw [hkey p (List.mem_cons_self p rest) hk]
    · rw [if_neg hk]
      refine ih ?_ (fun q hq => hkey q (List.mem_cons_of_mem p hq))
      rcases List.mem_cons.mp hmem with h1 | h2
      · exact absurd (congrArg Prod.fst h1).symm hk
      · exact h2

theorem mapGet_mem (t : List (Nat × Nat)) (k v : Nat) (h : mapGet t k = some v) :
    (k, v) ∈ t := by
  induction t with
  | nil => simp [mapGet] at h
  | cons p rest ih =>
    simp only [mapGet] at h
    by_cases hk : p.1 = k
    · rw [if_pos hk] at h
      obtain ⟨a, b⟩ := p
      simp only at hk h
      injection h with hb
      rw [hk, hb] at *
      exact List.mem_cons_self (k, v) rest
    · rw [if_neg hk] at h
      exact List.mem_cons_of_mem p (ih h)

theorem mem_mapSet (t : List (Nat × Nat)) (k v : Nat) (p : Nat × Nat)
    (h : p ∈ mapSet t k v) : p ∈ t ∨ p = (k, v) := by
  induction t with
  | nil =>
    simp only [mapSet, List.mem_singleton] at h
    exact Or.inr h
  | cons q rest ih =>
    simp only [mapSet] at h
    by_cases hk : q.1 = k
    · rw [if_pos hk] at h
      rcases List.mem_cons.mp h with h1 | h2
      · exact Or.inr h1
      · exact Or.inl (List.mem_cons_of_mem q h2)
    · rw [if_neg hk] at h
      rcases List.mem_cons.mp h with h1 | h2
      · exact Or.inl (List.mem_cons.mpr (Or.inl h1))
      · rcases ih h2 with h3 | h3
        · exact Or.inl (List.mem_cons_of_mem q h3)
        · exact Or.inr h3

theorem mapSet_not_has (t : List (Nat × Nat)) (k v : Nat)
    (h : mapHas t k = false) : mapSet t k v = t ++ [(k, v)] := by
  induction t with
  | nil => rfl
  | cons p rest ih =>
    simp only [mapHas] at h
    by_cases hk : p.1 = k
    · rw [if_pos hk] at h
      cases h
    · rw [if_neg hk] at h
      simp only [mapSet, if_neg hk, List.cons_append]
      rw [ih h]

theorem mem_mapDelete (t : List (Nat × Nat)) (k : Nat) (p : Nat × Nat)
    (h : p ∈ mapDelete t k) : p ∈ t ∧ p.1 ≠ k := by
  induction t with
  | nil => cases h
  | cons q rest ih =>
    simp only [mapDelete] at h
    by_cases hk : q.1 = k
    · rw [if_pos hk] at h
      obtain ⟨h1, h2⟩ := ih h
      exact ⟨List.mem_cons_of_mem q h1, h2⟩
    · rw [if_neg hk] at h
      rcases List.mem_cons.mp h with h1 | h2
      · exact ⟨List.mem_cons.mpr (Or.inl h1), h1 ▸ hk⟩
      · obtain ⟨h3, h4⟩ := ih h2
        exact ⟨List.mem_cons_of_mem q h3, h4⟩

theorem mapHas_mapDelete_self (t : List (Nat × Nat)) (k : Nat) :
    mapHas (mapDelete t k) k = false :=
  mapHas_eq_false_of _ _ (fun p hp => (mem_mapDelete t k p hp).2)

theorem mapHas_mapSet_self (t : List (Nat × Nat)) (k v : Nat) :
    mapHas (mapSet t k v) k = true := by
  induction t with
  | nil => simp [mapSet, mapHas]
  | cons p rest ih =>
    simp only [mapSet]
    by_cases hk : p.1 = k
    · rw [if_pos hk]
      simp [mapHas]
    · rw [if_neg hk]
      simp only [mapHas, if_neg hk]
      exact ih

theorem mapGet_mapSet_self (t : List (Nat × Nat)) (k v : Nat) :
    mapGet (mapSet t k v) k = some v := by
  induction t with
  | nil => simp [mapSet, mapGet]
  | cons p rest ih =>
    simp only [mapSet]
    by_cases hk : p.1 = k
    · rw [if_pos hk]
      simp [mapGet]
    · rw [if_neg hk]
      simp only [mapGet, if_neg hk]
      exact ih

theorem countKey_eq_zero_of (t : List (Nat × Nat)) (m : Nat)
    (h : ∀ p ∈ t, p.1 ≠ m) : countKey t m = 0 := by
  induction t with
  | nil => rfl
  | cons p rest ih =>
    simp only [countKey, if_neg (h p (List.mem_cons_self p rest)),
      ih (fun q hq => h q (List.mem_cons_of_mem p hq))]

theorem countKey_exists (t : List (Nat × Nat)) (m : Nat)
    (h : countKey t m ≠ 0) : ∃ p ∈ t, p.1 = m := by
  induction t with
  | nil => exact absurd rfl h
  | cons p rest ih =>
    by_cases hk : p.1 = m
    · exact ⟨p, List.mem_cons_self p rest, hk⟩
    · simp only [countKey, if_neg hk, Nat.zero_add] at h
      obtain ⟨q, hq, hqk⟩ := ih h
      exact ⟨q, List.mem_cons_of_mem p hq, hqk⟩

theorem countKey_append (t1 t2 : List (Nat × Nat)) (m : Nat) :
    countKey (t1 ++ t2) m = countKey t1 m + countKey t2 m := by
  induction t1 with
  | nil => simp [countKey]
  | cons p rest ih =>
    simp only [List.cons_append, List.append_eq, countKey, ih, Nat.add_assoc]

theorem countKey_mapSet_ne (t : List (Nat × Nat)) (k v m : Nat) (h : k ≠ m) :
    countKey (mapSet t k v) m = countKey t m := by
  induction t with
  | nil => simp [mapSet, countKey, if_neg h]
  | cons p rest ih =>
    simp only [mapSet]
    by_cases hk : p.1 = k
    · rw [if_pos hk]
      have hpm : p.1 ≠ m := by rw [hk]; exact h
      simp only [countKey, if_neg h, if_neg hpm]
    · rw [if_neg hk]
      simp only [countKey, ih]

theorem countKey_mapDelete_ne (t : List (Nat × Nat)) (k m : Nat) (h : k ≠ m) :
    countKey (mapDelete t k) m = countKey t m := by
  induction t with
  | nil => rfl
  | cons p rest ih =>
    simp only [mapDelete]
    by_cases hk : p.1 = k
    · rw [if_pos hk]
      have hpm : p.1 ≠ m := by rw [hk]; exact h
      simp only [countKey, if_neg hpm, ih, Nat.zero_add]
    · rw [if_neg hk]
      simp only [countKey, ih]

theorem countVal_eq_zero_of (t : List (Nat × Nat)) (c : Nat)
    (h : ∀ p ∈ t, p.2 ≠ c) : countVal t c = 0 := by
  induction t with
  | nil => rfl
  | cons p rest ih =>
    simp only [countVal, if_neg (h p (List.mem_cons_self p rest)),
      ih (fun q hq => h q (List.mem_cons_of_mem p hq))]

theorem countVal_eq_countKey_of (t : List (Nat × Nat)) (m c : Nat)
    (h : ∀ p ∈ t, (p.2 = c) ↔ (p.1 = m)) : countVal t c = countKey t m := by
  induction t with
  | nil => rfl
  | cons p rest ih =>
    have hp := h p (List.mem_cons_self p rest)
    have hr := ih (fun q hq => h q (List.mem_cons_of_mem p hq))
    simp only [countVal, countKey, hr]
    by_cases h2 : p.2 = c
    · rw [if_pos h2, if_pos (hp.mp h2)]
    · rw [if_neg h2, if_neg (fun h1 => h2 (hp.mpr h1))]

theorem countFired_append (l1 l2 : List (Nat × Outcome)) (c : Nat) :
    countFired (l1 ++ l2) c = countFired l1 c + countFired l2 c := by
  induction l1 with
  | nil => simp [countFired]
  | cons p rest ih =>
    simp only [List.cons_append, List.append_eq, countFired, ih, Nat.add_assoc]

theorem countFired_close_map (t : List (Nat × Nat)) (c : Nat) :
    countFired (t.map (fun p => (p.2, Outcome.connectionLost))) c = countVal t c := by
  induction t with
  | nil => rfl
  | cons p rest ih =>
    simp only [List.map_cons, countFired, countVal, ih]

theorem TableDone_mapSet (m c k v : Nat) (t : List (Nat × Nat))
    (hT : TableDone m c t) (hk : k ≠ m) (hv : v ≠ c) :
    TableDone m c (mapSet t k v) := by
  intro p hp
  rcases mem_mapSet t k v p hp with h | h
  · exact hT p h
  · rw [h]; exact ⟨hk, hv⟩

theorem TableDone_mapDelete (m c k : Nat) (t : List (Nat × Nat))
    (hT : TableDone m c t) : TableDone m c (mapDelete t k) :=
  fun p hp => hT p (mem_mapDelete t k p hp).1

theorem TablePending_mem (m c : Nat) (t : List (Nat × Nat))
    (hP : TablePending m c t) : (m, c) ∈ t := by
  obtain ⟨p, hp, hpk⟩ := countKey_exists t m (by rw [hP.1]; exact Nat.one_ne_zero)
  have := hP.2.1 p hp hpk
  rw [← this]
  exact hp

theorem TablePending_mapSet (m c k v : Nat) (t : List (Nat × Nat))
    (hP : TablePending m c t) (hk : k ≠ m) (hv : v ≠ c) :
    TablePending m c (mapSet t k v) := by
  refine ⟨?_, ?_, ?_⟩
  · rw [countKey_mapSet_ne t k v m hk]; exact hP.1
  · intro p hp hpk
    rcases mem_mapSet t k v p hp with h | h
    · exact hP.2.1 p h hpk
    · exact absurd ((congrArg Prod.fst h).symm.trans hpk) hk
  · intro p hp hpv
    rcases mem_mapSet t k v p hp with h | h
    · exact hP.2.2 p h hpv
    · exact absurd ((congrArg Prod.snd h).symm.trans hpv) hv

theorem TablePending_mapDelete (m c k : Nat) (t : List (Nat × Nat))
    (hP : TablePending m c t) (hk : k ≠ m) :
    TablePending m c (mapDelete t k) := by
  refine ⟨?_, ?_, ?_⟩
  · rw [countKey_mapDelete_ne t k m hk]; exact hP.1
  · exact fun p hp => hP.2.1 p (mem_mapDelete t k p hp).1
  · exact fun p hp => hP.2.2 p (mem_mapDelete t k p hp).1

theorem TableDone_of_pending_delete (m c : Nat) (t : List (Nat × Nat))
    (hP : TablePending m c t) : TableDone m c (mapDelete t m) := by
  intro p hp
  obtain ⟨hpt, hpk⟩ := mem_mapDelete t m p hp
  refine ⟨hpk, fun hpv => ?_⟩
  exact hpk (congrArg Prod.fst (hP.2.2 p hpt hpv))

theorem TablePending_append (m c : Nat) (t : List (Nat × Nat))
    (hT : TableDone m c t) : TablePending m c (t ++ [(m, c)]) := by
  refine ⟨?_, ?_, ?_⟩
  · rw [countKey_append, countKey_eq_zero_of t m (fun p hp => (hT p hp).1)]
    simp [countKey]
  · intro p hp _
    rcases List.mem_append.mp hp with h | h
    · exact absurd ‹p.1 = m› (hT p h).1
    · exact List.mem_singleton.mp h
  · intro p hp _
    rcases List.mem_append.mp hp with h | h
    · exact absurd ‹p.2 = c› (hT p h).2
    · exact List.mem_singleton.mp h

theorem run_append (t : List (Nat × Nat)) (l1 l2 : List Act) :
    run t (l1 ++ l2) =
      ((run (run t l1).1 l2).1, (run t l1).2 ++ (run (run t l1).1 l2).2) := by
  induction l1 generalizing t with
  | nil => simp [run]
  | cons a as ih =>
    simp only [List.cons_append, List.append_eq, run]
    rw [ih]
    simp [List.append_assoc]

theorem run_done (m c : Nat) (tr : List Act) : ∀ (t : List (Nat × Nat)),
    tr.all (avoidsPair m c) = true → tr.all (timeoutAligned m c) = true →
    TableDone m c t →
    countFired (run t tr).2 c = 0 ∧ TableDone m c (run t tr).1 := by
  induction tr with
  | nil => exact fun t _ _ hT => ⟨rfl, hT⟩
  | cons a rest ih =>
    intro t hav hal hT
    simp only [List.all_cons, Bool.and_eq_true] at hav hal
    cases a with
    | register m1 c1 =>
      obtain ⟨hava, havr⟩ := hav
      simp only [avoidsPair, Bool.and_eq_true, decide_eq_true_eq] at hava
      simp only [run, step, List.nil_append]
      exact ih (mapSet t m1 c1) havr hal.2
        (TableDone_mapSet m c m1 c1 t hT hava.1 hava.2)
    | response m1 =>
      cases hget : mapGet t m1 with
      | none =>
        simp only [run, step, hget, List.nil_append]
        exact ih t hav.2 hal.2 hT
      | some cb =>
        have hcb : cb ≠ c := (hT (m1, cb) (mapGet_mem t m1 cb hget)).2
        simp only [run, step, hget]
        rw [countFired_append]
        obtain ⟨h0, hd⟩ := ih (mapDelete t m1) hav.2 hal.2
          (TableDone_mapDelete m c m1 t hT)
        refine ⟨?_, hd⟩
        rw [h0]
        simp [countFired, hcb]
    | timeoutF m1 c1 =>
      obtain ⟨hala, halr⟩ := hal
      simp only [timeoutAligned, decide_eq_true_eq] at hala
      by_cases hm : m1 = m
      · have hhas : mapHas t m1 = false := by
          rw [hm]
          exact mapHas_eq_false_of t m (fun p hp => (hT p hp).1)
        simp only [run, step, fireTimeout, hhas, Bool.false_eq_true, if_false,
          List.nil_append]
        exact ih t hav.2 halr hT
      · have hc1 : c1 ≠ c := fun hc => hm (hala.mpr hc)
        cases hhas : mapHas t m1 with
        | false =>
          simp only [run, step, fireTimeout, hhas, Bool.false_eq_true, if_false,
            List.nil_append]
          exact ih t hav.2 halr hT
        | true =>
          simp only [run, step, fireTimeout, hhas, if_true]
          rw [countFired_append]
          obtain ⟨h0, hd⟩ := ih (mapDelete t m1) hav.2 halr
            (TableDone_mapDelete m c m1 t hT)
          refine ⟨?_, hd⟩
          rw [h0]
          simp [countFired, hc1]
    | close =>
      simp only [run, step]
      rw [countFired_append]
      obtain ⟨h0, hd⟩ := ih [] hav.2 hal.2 (fun p hp => absurd hp (List.not_mem_nil p))
      refine ⟨?_, hd⟩
      rw [h0, countFired_close_map,
        countVal_eq_zero_of t c (fun p hp => (hT p hp).2)]

theorem run_pending (m c : Nat) (tr : List Act) : ∀ (t : List (Nat × Nat)),
    tr.all (avoidsPair m c) = true → tr.all (timeoutAligned m c) = true →
    Act.timeoutF m c ∈ tr → TablePending m c t →
    countFired (run t tr).2 c = 1 := by
  induction tr with
  | nil => intro t _ _ h3 _; cases h3
  | cons a rest ih =>
    intro t hav hal h3 hP
    simp only [List.all_cons, Bool.and_eq_true] at hav hal
    cases a with
    | register m1 c1 =>
      obtain ⟨hava, havr⟩ := hav
      simp only [avoidsPair, Bool.and_eq_true, decide_eq_true_eq] at hava
      have h3' : Act.timeoutF m c ∈ rest := by
        rcases List.mem_cons.mp h3 with h | h
        · exact absurd h (fun hh => Act.noConfusion hh)
        · exact h
      simp only [run, step, List.nil_append]
      exact ih (mapSet t m1 c1) havr hal.2 h3'
        (TablePending_mapSet m c m1 c1 t hP hava.1 hava.2)
    | response m1 =>
      by_cases hm : m1 = m
      · subst hm
        have hget : mapGet t m1 = some c :=
          mapGet_eq_some_of t m1 c (TablePending_mem m1 c t hP) hP.2.1
        simp only [run, step, hget]
        rw [countFired_append]
        obtain ⟨h0, _⟩ := run_done m1 c rest (mapDelete t m1) hav.2 hal.2
          (TableDone_of_pending_delete m1 c t hP)
        rw [h0]
        simp [countFired]
      · have h3' : Act.timeoutF m c ∈ rest := by
          rcases List.mem_cons.mp h3 with h | h
          · exact absurd h (fun hh => Act.noConfusion hh)
          · exact h
        cases hget : mapGet t m1 with
        | none =>
          simp only [run, step, hget, List.nil_append]
          exact ih t hav.2 hal.2 h3' hP
        | some cb =>
          have hcb : cb ≠ c := by
            intro hc
            exact hm (congrArg Prod.fst
              (hP.2.2 (m1, cb) (mapGet_mem t m1 cb hget) hc))
          simp only [run, step, hget]
          rw [countFired_append]
          rw [ih (mapDelete t m1) hav.2 hal.2 h3'
            (TablePending_mapDelete m c m1 t hP hm)]
          simp [countFired, hcb]
    | timeoutF m1 c1 =>
      obtain ⟨hala, halr⟩ := hal
      simp only [timeoutAligned, decide_eq_true_eq] at hala
      by_cases hm : m1 = m
      · have hc1 : c1 = c := hala.mp hm
        subst hm
        subst hc1
        have hhas : mapHas t m1 = true :=
          mapHas_of_mem t m1 c1 (TablePending_mem m1 c1 t hP)
        simp only [run, step, fireTimeout, hhas, if_true]
        rw [countFired_append]
        obtain ⟨h0, _⟩ := run_done m1 c1 rest (mapDelete t m1) hav.2 halr
          (TableDone_of_pending_delete m1 c1 t hP)
        rw [h0]
        simp [countFired]
      · have hc1 : c1 ≠ c := fun hc => hm (hala.mpr hc)
        have h3' : Act.timeoutF m c ∈ rest := by
          rcases List.mem_cons.mp h3 with h | h
          · exfalso
            injection h with e1 e2
            exact hm e1.symm
          · exact h
        cases hhas : mapHas t m1 with
        | false =>
          simp only [run, step, fireTimeout, hhas, Bool.false_eq_true, if_false,
            List.nil_append]
          exact ih t hav.2 halr h3' hP
        | true =>
          simp only [run, step, fireTimeout, hhas, if_true]
          rw [countFired_append]
          rw [ih (mapDelete t m1) hav.2 halr h3'
            (TablePending_mapDelete m c m1 t hP hm)]
          simp [countFired, hc1]
    | close =>
      simp only [run, step]
      rw [countFired_append]
      have h1 : countFired (t.map fun p => (p.2, Outcome.connectionLost)) c = 1 := by
        rw [countFired_close_map, countVal_eq_countKey_of t m c ?_, hP.1]
        intro p hp
        constructor
        · intro h2
          exact congrArg Prod.fst (hP.2.2 p hp h2)
        · intro h1
          exact congrArg Prod.snd (hP.2.1 p hp h1)
      obtain ⟨h0, _⟩ := run_done m c rest [] hav.2 hal.2
        (fun p hp => absurd hp (List.not_mem_nil p))
      rw [h0, h1]

theorem drainMessages_fired (now : Nat) (q : List QMsg) :
    (drainMessages now q).1 =
      (q.filter (fun msg => decide (msg.timestamp + expireHorizon < now))).map
        (fun msg => (msg.cbId, Outcome.expired)) := by
  induction q with
  | nil => rfl
  | cons msg rest ih =>
    simp only [drainMessages, List.filter_cons]
    by_cases h : msg.timestamp + expireHorizon < now
    · simp [h, ih]
    · simp [h, ih]

theorem drainMessages_sent (now : Nat) (q : List QMsg) :
    (drainMessages now q).2 =
      (q.filter (fun msg => !decide (msg.timestamp + expireHorizon < now))).map
        QMsg.cbId := by
  induction q with
  | nil => rfl
  | cons msg rest ih =>
    simp only [drainMessages, List.filter_cons]
    by_cases h : msg.timestamp + expireHorizon < now
    · simp [h, ih]
    · simp [h, ih]

/-- C1 counterexample: two requests sent while OPEN during the same
millisecond (`Date.now() = 5` for both) share the correlation id, so the
second `Map.set` displaces the first caller's `resolve`.  After the full
lifecycle — the matching response arrives and both 30-second timeout
closures fire — the table is empty, caller 2's callback fired once, and
caller 1's callback fired ZERO times: its promise never settles, refuting
"the caller's callback eventually fires exactly once" for every request
sent while OPEN. -/
theorem pending_request_exactly_once_counterexample :
    (run [] [Act.register 5 1, Act.register 5 2, Act.response 5,
      Act.timeoutF 5 1, Act.timeoutF 5 2]).1 = [] ∧
    countFired (run [] [Act.register 5 1, Act.register 5 2, Act.response 5,
      Act.timeoutF 5 1, Act.timeoutF 5 2]).2 1 = 0 ∧
    countFired (run [] [Act.register 5 1, Act.register 5 2, Act.response 5,
      Act.timeoutF 5 1, Act.timeoutF 5 2]).2 2 = 1 := by decide

/-- C1 (amended): for a request registered while OPEN whose correlation id
`m` and callback `c` are not reused by any other registration in the
event trace, and whose scheduled timeout closure fires at some point after
the registration (as `setTimeout` guarantees), the caller's callback fires
exactly once across the three removal paths (matching response in
`onmessage`, the 30-second timeout, and the connection-loss drain in
`onclose`), hence also never twice. -/
theorem pending_request_exactly_once (pre post : List Act) (m c : Nat)
    (h1 : (pre ++ post).all (avoidsPair m c) = true)
    (h2 : (pre ++ post).all (timeoutAligned m c) = true)
    (h3 : Act.timeoutF m c ∈ post) :
    countFired (run [] (pre ++ Act.register m c :: post)).2 c = 1 := by
  rw [List.all_append, Bool.and_eq_true] at h1 h2
  obtain ⟨hd0, hdT⟩ := run_done m c pre [] h1.1 h2.1
    (fun p hp => absurd hp (List.not_mem_nil p))
  rw [run_append, countFired_append, hd0, Nat.zero_add]
  simp only [run, step, List.nil_append]
  rw [mapSet_not_has _ m c
    (mapHas_eq_false_of _ m (fun p hp => (hdT p hp).1))]
  exact run_pending m c post _ h1.2 h2.2 h3 (TablePending_append m c _ hdT)

/-- C1 witness: a concrete one-request trace (register, its response, its
timeout firing) in which the callback fires exactly once. -/
theorem pending_request_exactly_once_witness :
    (([] ++ [Act.response 7, Act.timeoutF 7 9] : List Act).all (avoidsPair 7 9) = true ∧
      ([] ++ [Act.response 7, Act.timeoutF 7 9] : List Act).all (timeoutAligned 7 9) = true ∧
      Act.timeoutF 7 9 ∈ [Act.response 7, Act.timeoutF 7 9]) ∧
    countFired (run [] ([] ++ Act.register 7 9 ::
      [Act.response 7, Act.timeoutF 7 9])).2 9 = 1 :=
  ⟨⟨by decide, by decide, by decide⟩,
    pending_request_exactly_once [] [Act.response 7, Act.timeoutF 7 9] 7 9
      (by decide) (by decide) (by decide)⟩

/-- C2 counterexample: registering a pending request under a correlation
id already present in the table (`5`, held by caller 1) succeeds silently:
no callback is invoked with any error, and the table afterwards holds the
new caller's callback in place of the old one.  There is no
`DuplicateCorrelationId` failure anywhere in the code. -/
theorem duplicate_register_counterexample :
    run [(5, 1)] [Act.register 5 2] = ([(5, 2)], []) := by decide

/-- C2 (amended): when the correlation id of a new registration is already
present in the pending-request table, `Map.set` silently replaces the
stored callback: the registration fires no error and the earlier caller's
callback is displaced (the table afterwards maps the id to the new
callback). -/
theorem duplicate_register_displaces (t : List (Nat × Nat)) (m c c0 : Nat)
    (hdup : mapGet t m = some c0) :
    (run t [Act.register m c]).2 = [] ∧
    mapGet (run t [Act.register m c]).1 m = some c := by
  refine ⟨rfl, ?_⟩
  simp only [run, step]
  exact mapGet_mapSet_self t m c

/-- C2 witness at a concrete table holding the id. -/
theorem duplicate_register_displaces_witness :
    mapGet [(5, 1)] 5 = some 1 ∧
    ((run [(5, 1)] [Act.register 5 2]).2 = [] ∧
      mapGet (run [(5, 1)] [Act.register 5 2]).1 5 = some 2) :=
  ⟨by decide, duplicate_register_displaces [(5, 1)] 5 2 1 (by decide)⟩

/-- C3 counterexample: a request submitted while the duplex connection
state is 'disconnected' (socket ref null) is routed to the outbound queue,
not to the HTTP fallback transport — `sendMessage` triggers `reconnect()`
and pushes the request onto `messageQueueRef`, so it waits for a duplex
reconnect instead of resolving via the fallback. -/
theorem fallback_race_counterexample :
    (sendMessage none ConnState.disconnected false).1 = Route.queued ∧
    (sendMessage none ConnState.disconnected false).1 ≠ Route.httpFallback ∧
    sendMessage (some ReadyState.CLOSED) ConnState.error false =
      (Route.queued, true) := by decide

/-- C3 (amended): for every request submitted while `connectionState` is
'disconnected' or 'error' and the socket is not OPEN, `sendMessage`
triggers `reconnect()` and enqueues the request in the outbound queue; the
HTTP fallback transport is not invoked on this path (it is reached only
when the socket is not OPEN while `connectionState` still reads
'connected', or after a direct duplex send fails). -/
theorem disconnected_send_queues (ws : Option ReadyState) (cs : ConnState)
    (hws : ws ≠ some ReadyState.OPEN)
    (hcs : cs = ConnState.disconnected ∨ cs = ConnState.error) :
    sendMessage ws cs false = (Route.queued, true) := by
  rcases hcs with h | h <;> subst h <;>
    simp [sendMessage, routeWhenNotOpen, hws]

/-- C3 witness at the scenario's state: duplex DISCONNECTED, socket ref
null. -/
theorem disconnected_send_queues_witness :
    ((none : Option ReadyState) ≠ some ReadyState.OPEN ∧
      (ConnState.disconnected = ConnState.disconnected ∨
        ConnState.disconnected = ConnState.error)) ∧
    sendMessage none ConnState.disconnected false = (Route.queued, true) :=
  ⟨⟨by decide, by decide⟩,
    disconnected_send_queues none ConnState.disconnected (by decide) (by decide)⟩

/-- C4 counterexample: on an involuntary close (code 1006) the pending
entry's callback is invoked with `Outcome.connectionLost`, which is the
stored `resolve` applied to the synthetic `{message: 'Connection lost'}`
`ChatResponse` — a promise FULFILLMENT, not a failure (contrast
`Outcome.timeout`, an actual rejection).  The entry is removed and a
reconnect is scheduled, but the caller observes a success-shaped result. -/
theorem close_success_shape_counterexample :
    (onClose [(5, 7)] 0 1006).fired = [(7, Outcome.connectionLost)] ∧
    Outcome.isRejection Outcome.connectionLost = false ∧
    Outcome.isRejection Outcome.timeout = true ∧
    (onClose [(5, 7)] 0 1006).reconnectScheduled = true := by decide

/-- C4 (amended): when the transport closes involuntarily (close code not
1000) with the attempt cap not reached, every pending entry is removed
(the table is cleared), each entry's callback is invoked with the
synthetic 'Connection lost' response (fulfilling the promise rather than
rejecting it), the heartbeat stops, the socket ref is nulled, and a
reconnect attempt is scheduled after the backoff delay. -/
theorem close_drains_pending (callbacks : List (Nat × Nat)) (attempts code : Nat)
    (hcode : code ≠ 1000) (hcap : attempts < maxReconnectAttempts) :
    (onClose callbacks attempts code).callbacksAfter = [] ∧
    (onClose callbacks attempts code).heartbeatAfter = false ∧
    (onClose callbacks attempts code).wsAfter = none ∧
    (onClose callbacks attempts code).reconnectScheduled = true ∧
    (onClose callbacks attempts code).scheduledDelay = some (nextDelay attempts) ∧
    (onClose callbacks attempts code).connStateAfter = ConnState.disconnected ∧
    ∀ p ∈ callbacks,
      (p.2, Outcome.connectionLost) ∈ (onClose callbacks attempts code).fired := by
  have hsched : (decide (code ≠ 1000) && decide (attempts < maxReconnectAttempts)) = true := by
    rw [decide_eq_true hcode, decide_eq_true hcap]
    rfl
  refine ⟨rfl, rfl, rfl, ?_, ?_, ?_, ?_⟩
  · simp [onClose, hsched]
    exact ⟨hcode, hcap⟩
  · simp [onClose, hsched]
    exact ⟨hcode, hcap⟩
  · simp [onClose, hsched]
    exact fun _ => hcap
  · intro p hp
    exact List.mem_map.mpr ⟨p, hp, rfl⟩

/-- C4 witness at the scenario: one pending request, fresh counter,
abnormal close code 1006. -/
theorem close_drains_pending_witness :
    (1006 ≠ 1000 ∧ 0 < maxReconnectAttempts) ∧
    ((onClose [(5, 7)] 0 1006).callbacksAfter = [] ∧
      (onClose [(5, 7)] 0 1006).heartbeatAfter = false ∧
      (onClose [(5, 7)] 0 1006).wsAfter = none ∧
      (onClose [(5, 7)] 0 1006).reconnectScheduled = true ∧
      (onClose [(5, 7)] 0 1006).scheduledDelay = some (nextDelay 0) ∧
      (onClose [(5, 7)] 0 1006).connStateAfter = ConnState.disconnected ∧
      ∀ p ∈ [((5 : Nat), (7 : Nat))],
        (p.2, Outcome.connectionLost) ∈ (onClose [(5, 7)] 0 1006).fired) :=
  ⟨⟨by decide, by decide⟩,
    close_drains_pending [(5, 7)] 0 1006 (by decide) (by decide)⟩

/-- C5 counterexample: a message enqueued at time 0 with the 5-minute
horizon, still undrained at time 300001 (= T + H + 1) while the client is
disconnected (socket CLOSED or ref null), is NOT evicted and its caller is
NOT notified: `processMessageQueue` returns immediately unless the socket
is OPEN, and the code contains no other eviction path and no periodic
eviction timer while disconnected. -/
theorem stale_eviction_counterexample :
    processMessageQueue (some ReadyState.CLOSED) [⟨1, 0⟩] 300001 =
      ([⟨1, 0⟩], ([], [])) ∧
    processMessageQueue none [⟨1, 0⟩] 300001 = ([⟨1, 0⟩], ([], [])) := by decide

/-- C5 (amended): eviction of stale queued messages happens only when the
queue is drained with the socket OPEN: at that drain, a message whose age
strictly exceeds the 5-minute horizon is rejected with
`Error('Message expired')`, removed from the queue, and not retransmitted;
while disconnected no eviction runs, so the caller is notified only at the
next drain. -/
theorem queue_staleness (q : List QMsg) (now : Nat) (msg : QMsg)
    (hmem : msg ∈ q) (hstale : msg.timestamp + expireHorizon < now)
    (hnodup : (q.map QMsg.cbId).Nodup) :
    (processMessageQueue (some ReadyState.OPEN) q now).1 = [] ∧
    (msg.cbId, Outcome.expired) ∈
      (processMessageQueue (some ReadyState.OPEN) q now).2.1 ∧
    msg.cbId ∉ (processMessageQueue (some ReadyState.OPEN) q now).2.2 := by
  refine ⟨rfl, ?_, ?_⟩
  · show (msg.cbId, Outcome.expired) ∈ (drainMessages now q).1
    rw [drainMessages_fired]
    exact List.mem_map.mpr ⟨msg, List.mem_filter.mpr ⟨hmem, by simp [hstale]⟩, rfl⟩
  · show msg.cbId ∉ (drainMessages now q).2
    rw [drainMessages_sent]
    intro hmm
    obtain ⟨msg2, hm2, hcb⟩ := List.mem_map.mp hmm
    obtain ⟨hm2q, hfresh⟩ := List.mem_filter.mp hm2
    have heq : msg2 = msg := List.inj_on_of_nodup_map hnodup hm2q hmem hcb
    rw [heq] at hfresh
    simp [hstale] at hfresh

/-- C5 witness: one message enqueued at time 0, drained at time
300001 with the socket OPEN. -/
theorem queue_staleness_witness :
    ((⟨1, 0⟩ : QMsg) ∈ [(⟨1, 0⟩ : QMsg)] ∧
      (⟨1, 0⟩ : QMsg).timestamp + expireHorizon < 300001 ∧
      (([(⟨1, 0⟩ : QMsg)].map QMsg.cbId).Nodup)) ∧
    ((processMessageQueue (some ReadyState.OPEN) [⟨1, 0⟩] 300001).1 = [] ∧
      ((⟨1, 0⟩ : QMsg).cbId, Outcome.expired) ∈
        (processMessageQueue (some ReadyState.OPEN) [⟨1, 0⟩] 300001).2.1 ∧
      (⟨1, 0⟩ : QMsg).cbId ∉
        (processMessageQueue (some ReadyState.OPEN) [⟨1, 0⟩] 300001).2.2) :=
  ⟨⟨by decide, by decide, by decide⟩,
    queue_staleness [⟨1, 0⟩] 300001 ⟨1, 0⟩ (by decide) (by decide) (by decide)⟩

/-- C6 counterexample: calling `connect()` while the socket is OPEN is not
a no-op: the guard only checks for readyState CONNECTING, so a brand-new
WebSocket is constructed (third component `true`), it replaces the open
socket in `wsRef`, and `connectionState` is flipped from 'connected' to
'connecting'. -/
theorem connect_open_counterexample :
    connect (some ReadyState.OPEN) ConnState.connected =
      (some ReadyState.CONNECTING, ConnState.connecting, true) := by decide

/-- C6 (amended): `connect()` is a no-op only while a connect is already
in flight (socket present with readyState CONNECTING); in every other
state — including OPEN — it constructs a new transport that replaces the
current one and sets `connectionState` to 'connecting'.  The reconnect
attempt counter is reset to 0 by the explicit caller-initiated retry
`reconnect()`, not by `connect()` itself. -/
theorem connect_noop_only_connecting :
    (∀ cs, connect (some ReadyState.CONNECTING) cs =
      (some ReadyState.CONNECTING, cs, false)) ∧
    (∀ ws cs, ws ≠ some ReadyState.CONNECTING →
      connect ws cs = (some ReadyState.CONNECTING, ConnState.connecting, true)) ∧
    (∀ ws cs, (reconnect ws cs).2 = 0) := by decide

/-- C6 witness: an OPEN socket is not the CONNECTING guard case, and
`connect` constructs a new transport there. -/
theorem connect_noop_only_connecting_witness :
    ((some ReadyState.OPEN : Option ReadyState) ≠ some ReadyState.CONNECTING) ∧
    connect (some ReadyState.OPEN) ConnState.connected =
      (some ReadyState.CONNECTING, ConnState.connecting, true) :=
  ⟨by decide,
    connect_noop_only_connecting.2.1 (some ReadyState.OPEN) ConnState.connected
      (by decide)⟩

/-- C7: the reconnect backoff `nextDelay` (the `Math.min(Math.pow(2,
attempt) * 1000, 30000)` expression of the source) is deterministic by
construction, monotonically non-decreasing, capped at 30000 ms (30
time-units), strictly positive for attempt > 0, and equal to
`min(cap, base * 2^attempt)` with base 1000 ms and cap 30000 ms. -/
theorem backoff_policy (a b : Nat) (ha : 0 < a) (hab : a < b) :
    nextDelay a ≤ nextDelay b ∧ nextDelay b ≤ 30000 ∧ 0 < nextDelay a ∧
    nextDelay a = min 30000 (1000 * 2 ^ a) := by
  simp only [nextDelay]
  refine ⟨?_, Nat.min_le_right _ _, ?_, ?_⟩
  · exact min_le_min
      (Nat.mul_le_mul_right 1000 (Nat.pow_le_pow_right (by decide) (Nat.le_of_lt hab)))
      (Nat.le_refl 30000)
  · exact lt_min (by positivity) (by decide)
  · rw [Nat.min_comm, Nat.mul_comm]

/-- C7 witness at attempts 1 < 2. -/
theorem backoff_policy_witness :
    (0 < 1 ∧ 1 < 2) ∧
    (nextDelay 1 ≤ nextDelay 2 ∧ nextDelay 2 ≤ 30000 ∧ 0 < nextDelay 1 ∧
      nextDelay 1 = min 30000 (1000 * 2 ^ 1)) :=
  ⟨⟨by decide, by decide⟩, backoff_policy 1 2 (by decide) (by decide)⟩

/-- C8: the `ws.onopen` handler resets the reconnect attempt counter to 0,
clears the scheduled reconnect timer, empties the outbound queue
atomically in the same event-loop turn, retransmits exactly the
non-expired messages in their original FIFO enqueue order (a filter of the
queue, so A enqueued before B is sent before B), and starts the heartbeat
timer. -/
theorem open_transition (queue : List QMsg) (attempts now : Nat) :
    (onOpen queue attempts now).attemptsAfter = 0 ∧
    (onOpen queue attempts now).heartbeatAfter = true ∧
    (onOpen queue attempts now).reconnectTimerAfter = false ∧
    (onOpen queue attempts now).queueAfter = [] ∧
    (onOpen queue attempts now).fired =
      (queue.filter (fun msg => decide (msg.timestamp + expireHorizon < now))).map
        (fun msg => (msg.cbId, Outcome.expired)) ∧
    (onOpen queue attempts now).transmitted =
      (queue.filter (fun msg => !decide (msg.timestamp + expireHorizon < now))).map
        QMsg.cbId :=
  ⟨rfl, rfl, rfl, rfl, drainMessages_fired now queue, drainMessages_sent now queue⟩

/-- C9 counterexample: when the duplex send fails (e.g. its 30-second
timeout rejection), `sendMessage` catches the error with only a console
warning and — with the socket still OPEN and `connectionState` still
'connected' — falls through to the HTTP fallback path, so the Timeout
failure is replaced by another delivery path instead of being returned to
the caller. -/
theorem timeout_swallowed_counterexample :
    sendMessage (some ReadyState.OPEN) ConnState.connected true =
      (Route.httpFallback, false) ∧
    Route.httpFallback ≠ Route.duplex := by decide

/-- C9 (amended): a duplex request against a transport that never responds
schedules its timeout closure at exactly `now + 30000` ms; when that
closure fires, the entry is removed from the pending table (the id is no
longer present) and the inner promise rejects with
`Error('Message timeout')`.  However `sendMessage` catches this rejection
and re-routes the request to the HTTP fallback (when `connectionState` is
still 'connected'), so the caller observes the fallback's outcome rather
than the Timeout failure itself. -/
theorem request_timeout_behavior (callbacks : List (Nat × Nat)) (now cbId : Nat) :
    (sendMessageInternal (some ReadyState.OPEN) callbacks now cbId).timer =
      some ⟨now, cbId, now + requestTimeoutMs⟩ ∧
    (sendMessageInternal (some ReadyState.OPEN) callbacks now cbId).transmitted =
      [cbId] ∧
    (fireTimeout
      (sendMessageInternal (some ReadyState.OPEN) callbacks now cbId).callbacksAfter
      now cbId).2 = [(cbId, Outcome.timeout)] ∧
    mapHas (fireTimeout
      (sendMessageInternal (some ReadyState.OPEN) callbacks now cbId).callbacksAfter
      now cbId).1 now = false ∧
    sendMessage (some ReadyState.OPEN) ConnState.connected true =
      (Route.httpFallback, false) := by
  have hhas : mapHas (mapSet callbacks now cbId) now = true :=
    mapHas_mapSet_self callbacks now cbId
  refine ⟨rfl, rfl, ?_, ?_, by decide⟩
  · show (fireTimeout (mapSet callbacks now cbId) now cbId).2 = _
    simp [fireTimeout, hhas]
  · show mapHas (fireTimeout (mapSet callbacks now cbId) now cbId).1 now = false
    simp [fireTimeout, hhas, mapHas_mapDelete_self]

/-- C10: every tick of the heartbeat interval sends the ping probe exactly
when the socket ref is non-null with readyState OPEN, and never mutates
any client state; on a tick where the socket is absent, CONNECTING,
CLOSING or CLOSED nothing is sent, so a probe is never transmitted on a
non-open socket even if the interval outlives the connection that started
it. -/
theorem heartbeat_guard (s : HeartbeatView) :
    (heartbeatTick s).1 = s ∧
    ((heartbeatTick s).2.isSome ↔ s.ws = some ReadyState.OPEN) := by
  obtain ⟨ws, cb, q⟩ := s
  cases ws with
  | none => simp [heartbeatTick]
  | some rs => cases rs <;> simp [heartbeatTick]

end WSClient
